/-
  Verification of the ERPlora multicurrency module's conversion and
  rate-update subsystem.

  The Python `decimal.Decimal` values are modelled as exact rationals (ℚ);
  `quantize(..., ROUND_HALF_UP)` becomes `quantizeHalfUp`, Python's
  `round()` on a `Decimal` (banker's rounding) becomes `quantizeHalfEven`,
  and division is exact rational division (the 28-significant-digit
  intermediate context of `decimal` is idealised away; every concrete value
  used below was checked to agree with the exact-rational result).

  Persistent state (currencies, rate history, payments) is modelled as a
  `HubState` record of lists, and each Django view / assistant tool becomes
  a state-transition function translated line by line from
  `src/models.py`, `src/views.py` and `src/ai_tools.py`.
-/
import Mathlib

set_option maxRecDepth 2000

namespace Multicurrency

/-! ### Rounding primitives -/

/-- Round a rational to an integer, half away from zero
    (`decimal.ROUND_HALF_UP`).  `Rat.floor` is used rather than `⌊·⌋` so the
    definition evaluates inside the kernel. -/
def roundHalfUpInt (q : ℚ) : ℤ :=
  if 0 ≤ q then (q + 1/2).floor else -(-q + 1/2).floor

/-- Round a rational to an integer, ties to even
    (`decimal.ROUND_HALF_EVEN`, the default context rounding used by
    `Decimal.__round__` and by `quantize` without an explicit mode).
    The fractional part `q - ⌊q⌋` is compared with `1/2` on integers:
    `r2 = 2·num - 2·⌊q⌋·den` is twice its numerator over denominator `den`. -/
def roundHalfEvenInt (q : ℚ) : ℤ :=
  let f := q.floor
  let r2 : ℤ := 2 * q.num - 2 * f * Int.ofNat q.den
  if r2 < Int.ofNat q.den then f
  else if Int.ofNat q.den < r2 then f + 1
  else if f % 2 = 0 then f else f + 1

/-- `Rat.floor` agrees with the `FloorRing` floor. -/
theorem ratFloor_eq_intFloor (q : ℚ) : q.floor = ⌊q⌋ := by
  rw [Rat.floor_def, ← Rat.floor_def']

/-- `x.quantize(Decimal(10) ** -d, rounding=ROUND_HALF_UP)`: scale by
    `10^d`, round to an integer, scale back.  `Rat.divInt` builds the result
    so the definition evaluates inside the kernel; `quantizeHalfUp_eq_div`
    below restates it as ordinary division. -/
def quantizeHalfUp (d : ℕ) (q : ℚ) : ℚ :=
  Rat.divInt (roundHalfUpInt (q * 10 ^ d)) ((10 : ℤ) ^ d)

/-- `x.quantize(Decimal(10) ** -d)` with the default (half-even) rounding;
    also Python's `round(x, d)` on a `Decimal`. -/
def quantizeHalfEven (d : ℕ) (q : ℚ) : ℚ :=
  Rat.divInt (roundHalfEvenInt (q * 10 ^ d)) ((10 : ℤ) ^ d)

/-- `quantizeHalfUp` as ordinary division. -/
theorem quantizeHalfUp_eq_div (d : ℕ) (q : ℚ) :
    quantizeHalfUp d q = (roundHalfUpInt (q * 10 ^ d) : ℚ) / 10 ^ d := by
  rw [quantizeHalfUp, Rat.divInt_eq_div]
  push_cast
  ring

/-- `quantizeHalfEven` as ordinary division. -/
theorem quantizeHalfEven_eq_div (d : ℕ) (q : ℚ) :
    quantizeHalfEven d q = (roundHalfEvenInt (q * 10 ^ d) : ℚ) / 10 ^ d := by
  rw [quantizeHalfEven, Rat.divInt_eq_div]
  push_cast
  ring

/-- Python's `str.upper()` on the ASCII currency codes used here: a
    structural reimplementation of `String.toUpper` (whose well-founded
    recursion does not evaluate inside the kernel). -/
def strUpper (s : String) : String := ⟨s.data.map Char.toUpper⟩

/-! ### Data model (`src/models.py`) -/

/-- A row of `multicurrency_currency` (model `Currency`), with the soft-delete
    bookkeeping inherited from `HubBaseModel`.  Timestamps are abstract
    naturals handed in by the caller (the `Clock` capability). -/
structure Currency where
  id : ℕ
  code : String
  name : String
  symbol : String
  decimal_places : ℕ
  exchange_rate : ℚ
  is_active : Bool
  is_deleted : Bool
  last_updated : Option ℕ
  deleted_at : Option ℕ
  sort_order : ℕ
deriving DecidableEq, Repr

/-- `Currency.convert_from_base` (`src/models.py:112`): base → this currency,
    half-up rounded to this currency's `decimal_places`, zero-rate sentinel. -/
def Currency.convert_from_base (c : Currency) (amount : ℚ) : ℚ :=
  if c.exchange_rate = 0 then 0
  else quantizeHalfUp c.decimal_places (amount * c.exchange_rate)

/-- `Currency.convert_to_base` (`src/models.py:122`): this currency → base,
    half-up rounded to 2 decimal places, zero-rate sentinel. -/
def Currency.convert_to_base (c : Currency) (amount : ℚ) : ℚ :=
  if c.exchange_rate = 0 then 0
  else quantizeHalfUp 2 (amount / c.exchange_rate)

/-- A row of `multicurrency_rate_history` (model `ExchangeRateHistory`). -/
structure RateHistoryEntry where
  currency_id : ℕ
  rate : ℚ
  source : String
deriving DecidableEq, Repr

/-- A row of `multicurrency_payment` (model `CurrencyPayment`), reduced to the
    fields the delete check reads. -/
structure Payment where
  currency_id : Option ℕ
  is_deleted : Bool
deriving DecidableEq, Repr

/-- `CurrencySettings`, reduced to the fields the core operations read. -/
structure CurrencySettings where
  base_currency : String
  rate_source : String
  api_key : String
deriving DecidableEq, Repr

/-- The hub's persistent state: currency registry, rate-history ledger and
    payment ledger. -/
structure HubState where
  currencies : List Currency
  history : List RateHistoryEntry
  payments : List Payment
deriving DecidableEq, Repr

/-- Well-formedness: database primary keys are unique. -/
def HubState.wf (st : HubState) : Prop :=
  (st.currencies.map Currency.id).Nodup

instance (st : HubState) : Decidable st.wf := by
  unfold HubState.wf; infer_instance

/-! ### Conversion API (`api_convert`, `src/views.py:388`) -/

/-- Outcome of the conversion endpoint.  `divisionError` models the uncaught
    `decimal.DivisionByZero` / `InvalidOperation` raised by the effective-rate
    division at `src/views.py:449` when the source currency's rate is zero. -/
inductive ConvertOutcome
  | missingParams
  | notFound (code : String)
  | divisionError
  | ok (result rate : ℚ)
deriving DecidableEq, Repr

/-- `Currency.objects.filter(hub_id=hub, code=code, is_active=True,
    is_deleted=False).first()` — at most one row matches thanks to the
    `(hub_id, code)` uniqueness constraint. -/
def findActive (currencies : List Currency) (code : String) : Option Currency :=
  currencies.find? fun c => c.code == code && c.is_active && !c.is_deleted

/-- The `api_convert` view: uppercase the query parameters, look up the two
    non-base currencies (404 on a miss, source side first), convert through
    the base, and report the composite rate `toRate / fromRate`. -/
def api_convert (currencies : List Currency) (settings : CurrencySettings)
    (fromParam toParam : String) (amount : ℚ) : ConvertOutcome :=
  let from_code := strUpper fromParam
  let to_code := strUpper toParam
  if from_code = "" ∨ to_code = "" then .missingParams
  else
    let base := strUpper settings.base_currency
    let fromLookup : Except String (Option Currency) :=
      if from_code ≠ base then
        match findActive currencies from_code with
        | none => .error from_code
        | some c => .ok (some c)
      else .ok none
    match fromLookup with
    | .error code => .notFound code
    | .ok from_currency =>
      let toLookup : Except String (Option Currency) :=
        if to_code ≠ base then
          match findActive currencies to_code with
          | none => .error to_code
          | some c => .ok (some c)
        else .ok none
      match toLookup with
      | .error code => .notFound code
      | .ok to_currency =>
        let base_amount :=
          match from_currency with
          | some fc => fc.convert_to_base amount
          | none => amount
        let result :=
          match to_currency with
          | some tc => tc.convert_from_base base_amount
          | none => base_amount
        let fromRate := ((from_currency.map Currency.exchange_rate).getD 1)
        let toRate := ((to_currency.map Currency.exchange_rate).getD 1)
        if fromRate = 0 then .divisionError
        else .ok result (toRate / fromRate)

/-! ### Rate-update orchestrator (`update_rates`, `src/views.py:83`) -/

/-- Lookup in the parsed feed table (`code in rates` / `rates[code]`). -/
def feedLookup (feed : List (String × ℚ)) (code : String) : Option ℚ :=
  (feed.find? fun p => p.1 == code).map (·.2)

/-- The three-way rate derivation of the ECB branch (`src/views.py:124`):
    the feed's anchor currency is EUR. -/
def resolveEcbRate (feed : List (String × ℚ)) (base code : String) : Option ℚ :=
  if base = "EUR" ∧ (feedLookup feed code).isSome then
    feedLookup feed code
  else if (feedLookup feed base).isSome ∧ code = "EUR" then
    match feedLookup feed base with
    | some rb => some (1 / rb)
    | none => none
  else if (feedLookup feed base).isSome ∧ (feedLookup feed code).isSome then
    match feedLookup feed base, feedLookup feed code with
    | some rb, some rc => some (rc / rb)
    | _, _ => none
  else none

/-- One iteration of the ECB update loop (`src/views.py:119`): the (possibly
    updated) currency row, the history entry appended, and the warning
    recorded.  Rows outside the queryset (inactive or soft-deleted) and the
    base currency are untouched. -/
def ecbStep (feed : List (String × ℚ)) (base : String) (now : ℕ) (c : Currency) :
    Currency × Option RateHistoryEntry × Option String :=
  if c.is_active && !c.is_deleted then
    let code := strUpper c.code
    if code = base then (c, none, none)
    else
      match resolveEcbRate feed base code with
      | some r =>
        let r6 := quantizeHalfEven 6 r
        ({ c with exchange_rate := r6, last_updated := some now },
          some ⟨c.id, r6, "ecb"⟩, none)
      | none => (c, none, some (code ++ ": Not available from ECB"))
  else (c, none, none)

/-- One iteration of the ExchangeRate-API update loop (`src/views.py:182`):
    the provider returns rates already relative to the requested base. -/
def apiStep (feed : List (String × ℚ)) (base : String) (now : ℕ) (c : Currency) :
    Currency × Option RateHistoryEntry × Option String :=
  if c.is_active && !c.is_deleted then
    let code := strUpper c.code
    if code = base then (c, none, none)
    else
      match feedLookup feed code with
      | some r =>
        let r6 := quantizeHalfEven 6 r
        ({ c with exchange_rate := r6, last_updated := some now },
          some ⟨c.id, r6, "exchangerate_api"⟩, none)
      | none => (c, none, some (code ++ ": Not available from API"))
  else (c, none, none)

/-- The update loop: per-currency saves and history appends, in list order. -/
def rateLoop (step : Currency → Currency × Option RateHistoryEntry × Option String) :
    List Currency → List Currency × List RateHistoryEntry × List String
  | [] => ([], [], [])
  | c :: rest =>
    let (c', h?, w?) := step c
    let (cs, hs, ws) := rateLoop step rest
    (c' :: cs, h?.toList ++ hs, w?.toList ++ ws)

/-- Outcome of one orchestrator run. -/
inductive UpdateOutcome
  | manualSourceError
  | missingApiKey
  | providerError
  | okUpdated (updated : ℕ) (warnings : List String)
deriving DecidableEq, Repr

/-- Result of the remote fetch, abstracting `urllib` plus parsing: the table
    of code ↦ rate, or a transport/parse failure. -/
abbrev FetchResult := Except Unit (List (String × ℚ))

/-- The `update_rates` view.  `manual` is rejected up front; `ecb` and
    `exchangerate_api` run their loops over the fetched table; any other
    configured source falls through to an empty success. -/
def update_rates (settings : CurrencySettings) (fetch : FetchResult) (now : ℕ)
    (st : HubState) : UpdateOutcome × HubState :=
  if settings.rate_source = "manual" then (.manualSourceError, st)
  else if settings.rate_source = "ecb" then
    match fetch with
    | .error _ => (.providerError, st)
    | .ok feed =>
      let base := strUpper settings.base_currency
      let (cs, hs, ws) := rateLoop (ecbStep feed base now) st.currencies
      (.okUpdated hs.length ws,
        { st with currencies := cs, history := st.history ++ hs })
  else if settings.rate_source = "exchangerate_api" then
    if settings.api_key = "" then (.missingApiKey, st)
    else
      match fetch with
      | .error _ => (.providerError, st)
      | .ok feed =>
        let base := strUpper settings.base_currency
        let (cs, hs, ws) := rateLoop (apiStep feed base now) st.currencies
        (.okUpdated hs.length ws,
          { st with currencies := cs, history := st.history ++ hs })
  else (.okUpdated 0 [], st)

/-! ### Currency CRUD (`src/views.py:239`) -/

/-- The validated fields of `CurrencyForm`. -/
structure CurrencyFormData where
  code : String
  name : String
  symbol : String
  decimal_places : ℕ
  exchange_rate : ℚ
  is_active : Bool
  sort_order : ℕ
deriving DecidableEq, Repr

/-- `currency_create` POST branch with a valid form (`src/views.py:242`):
    save the new row (code uppercased, `last_updated` stamped) and record the
    initial rate in history with source `manual`. -/
def currency_create (st : HubState) (form : CurrencyFormData) (newId now : ℕ) :
    HubState :=
  let c : Currency :=
    { id := newId, code := strUpper form.code, name := form.name,
      symbol := form.symbol, decimal_places := form.decimal_places,
      exchange_rate := form.exchange_rate, is_active := form.is_active,
      is_deleted := false, last_updated := some now, deleted_at := none,
      sort_order := form.sort_order }
  { st with currencies := st.currencies ++ [c],
            history := st.history ++ [⟨newId, form.exchange_rate, "manual"⟩] }

/-- `currency_edit` POST branch with a valid form (`src/views.py:269`):
    `none` models the not-found early return; a history entry is recorded only
    when the submitted rate differs from the stored one. -/
def currency_edit (st : HubState) (pk : ℕ) (form : CurrencyFormData) (now : ℕ) :
    Option HubState :=
  match st.currencies.find? (fun c => c.id == pk && !c.is_deleted) with
  | none => none
  | some c =>
    let old_rate := c.exchange_rate
    let c' : Currency :=
      { c with
        code := strUpper form.code, name := form.name,
        symbol := form.symbol, decimal_places := form.decimal_places,
        exchange_rate := form.exchange_rate, is_active := form.is_active,
        sort_order := form.sort_order,
        last_updated :=
          if old_rate ≠ form.exchange_rate then some now else c.last_updated }
    some { st with
      currencies := st.currencies.map fun x => if x.id = pk then c' else x,
      history :=
        if old_rate ≠ form.exchange_rate then
          st.history ++ [⟨c.id, form.exchange_rate, "manual"⟩]
        else st.history }

/-- Outcome of `currency_delete`. -/
inductive DeleteOutcome
  | notFound
  | hasPayments
  | deleted
deriving DecidableEq, Repr

/-- `currency_delete` (`src/views.py:306`): 404 when absent, 400 when a
    non-deleted payment references the currency, otherwise soft-delete. -/
def currency_delete (st : HubState) (pk : ℕ) (now : ℕ) : DeleteOutcome × HubState :=
  match st.currencies.find? (fun c => c.id == pk && !c.is_deleted) with
  | none => (.notFound, st)
  | some c =>
    if st.payments.any (fun p => p.currency_id == some c.id && !p.is_deleted) then
      (.hasPayments, st)
    else
      (.deleted, { st with currencies := st.currencies.map fun x =>
        if x.id = pk then { x with is_deleted := true, deleted_at := some now }
        else x })

/-- `currency_toggle` (`src/views.py:335`): flip `is_active`; `none` models
    the not-found early return. -/
def currency_toggle (st : HubState) (pk : ℕ) : Option HubState :=
  match st.currencies.find? (fun c => c.id == pk && !c.is_deleted) with
  | none => none
  | some _ =>
    some { st with currencies := st.currencies.map fun x =>
      if x.id = pk then { x with is_active := !x.is_active } else x }

/-! ### Assistant tools (`src/ai_tools.py`) -/

/-- `ConvertCurrency.execute` (`src/ai_tools.py:58`), reduced to the converted
    amount: divide by the source rate (skipping the division when that rate is
    falsy, i.e. zero), multiply by the target rate, and round once with
    Python's `round`, which is half-even. -/
def convert_currency_tool (from_curr to_curr : Currency) (amount : ℚ) : ℚ :=
  let base_amount :=
    if from_curr.exchange_rate ≠ 0 then amount / from_curr.exchange_rate
    else amount
  let converted := base_amount * to_curr.exchange_rate
  quantizeHalfEven to_curr.decimal_places converted

/-- `AddCurrency.execute` (`src/ai_tools.py:96`): create the currency row —
    and nothing else; no `ExchangeRateHistory` row is written. -/
def add_currency_tool (st : HubState) (code name symbol : String) (rate : ℚ)
    (dp : ℕ) (newId : ℕ) : HubState :=
  let c : Currency :=
    { id := newId, code := strUpper code, name := name, symbol := symbol,
      decimal_places := dp, exchange_rate := rate, is_active := true,
      is_deleted := false, last_updated := none, deleted_at := none,
      sort_order := 0 }
  { st with currencies := st.currencies ++ [c] }

/-- `UpdateExchangeRate.execute` (`src/ai_tools.py:127`): save the new rate,
    then append the history row inside `try: ... except Exception: pass` — a
    failing append (`historyOk = false`) is swallowed, leaving the saved rate
    with no audit entry.  `none` models the `DoesNotExist` raise of
    `objects.get`. -/
def update_exchange_rate_tool (st : HubState) (code : String) (newRate : ℚ)
    (now : ℕ) (historyOk : Bool) : Option HubState :=
  match st.currencies.find? (fun c => c.code == strUpper code && !c.is_deleted) with
  | none => none
  | some c =>
    let st' := { st with currencies := st.currencies.map fun x =>
      if x.id = c.id then { x with exchange_rate := newRate, last_updated := some now }
      else x }
    some (if historyOk
      then { st' with history := st'.history ++ [⟨c.id, newRate, "manual"⟩] }
      else st')

/-! ### Rounding error bounds -/

/-- Half-up rounding moves a rational by at most `1/2`. -/
theorem abs_roundHalfUpInt_sub_le (q : ℚ) : |(roundHalfUpInt q : ℚ) - q| ≤ 1/2 := by
  unfold roundHalfUpInt
  by_cases h : 0 ≤ q
  · rw [if_pos h, ratFloor_eq_intFloor, abs_le]
    have h1 := Int.lt_floor_add_one (q + 1/2)
    have h2 := Int.floor_le (q + 1/2)
    constructor <;> linarith
  · rw [if_neg h, ratFloor_eq_intFloor, abs_le]
    have h1 := Int.lt_floor_add_one (-q + 1/2)
    have h2 := Int.floor_le (-q + 1/2)
    push_cast
    constructor <;> linarith

/-- Half-up quantization to `d` decimal places moves a rational by at most
    half a unit in the last place. -/
theorem abs_quantizeHalfUp_sub_le (d : ℕ) (q : ℚ) :
    |quantizeHalfUp d q - q| ≤ 1 / (2 * 10 ^ d) := by
  have h10 : (0:ℚ) < 10 ^ d := by positivity
  rw [quantizeHalfUp_eq_div]
  have h := abs_roundHalfUpInt_sub_le (q * 10 ^ d)
  have key : (roundHalfUpInt (q * 10 ^ d) : ℚ) / 10 ^ d - q
      = ((roundHalfUpInt (q * 10 ^ d) : ℚ) - q * 10 ^ d) / 10 ^ d := by
    field_simp
    ring
  rw [key, abs_div, abs_of_pos h10]
  have hrw : (1:ℚ) / (2 * 10 ^ d) = (1/2) / 10 ^ d := by ring
  rw [hrw]
  exact (div_le_div_iff_of_pos_right h10).mpr h

/-- Quantizing zero gives zero. -/
theorem quantizeHalfUp_zero (d : ℕ) : quantizeHalfUp d 0 = 0 := by
  have hfloor : ((0:ℚ) + 1/2).floor = 0 := by
    rw [ratFloor_eq_intFloor, Int.floor_eq_zero_iff]
    constructor <;> norm_num
  unfold quantizeHalfUp roundHalfUpInt
  rw [zero_mul, if_pos le_rfl, hfloor, Rat.zero_divInt]

/-! ### C3: the round-trip law -/

/-- C3, counterexample: for the currency with `exchange_rate = 0.01` and
    `decimal_places = 2` (rate `R > 0`), the round trip of `x = 0.10` through
    `convert(convert(x, base, C), C, base)` returns `0`, which misses `x` by
    `0.10`, ten times the claimed tolerance of one unit at the smaller scale
    (`0.01`).  The claim as stated is therefore false. -/
theorem c3_counterexample :
    let c : Currency :=
      { id := 1, code := "GBX", name := "Penny", symbol := "p",
        decimal_places := 2, exchange_rate := 1/100, is_active := true,
        is_deleted := false, last_updated := none, deleted_at := none,
        sort_order := 0 }
    0 < c.exchange_rate ∧
    c.convert_to_base (c.convert_from_base (1/10)) = 0 ∧
    ¬ (|c.convert_to_base (c.convert_from_base (1/10)) - 1/10|
        ≤ 1 / 10 ^ (min 2 c.decimal_places)) := by
  refine ⟨by with_unfolding_all decide, by with_unfolding_all decide, ?_⟩
  intro h
  rw [show (let c : Currency :=
      { id := 1, code := "GBX", name := "Penny", symbol := "p",
        decimal_places := 2, exchange_rate := 1/100, is_active := true,
        is_deleted := false, last_updated := none, deleted_at := none,
        sort_order := 0 }
      c.convert_to_base (c.convert_from_base (1/10))) = 0
    from by with_unfolding_all decide] at h
  norm_num at h
  rw [abs_of_pos (by norm_num : (0:ℚ) < 1/10)] at h
  linarith

/-- C3, amended: the round-trip law does hold for every currency whose rate is
    at least `1` (the counterexample needs `R < 1`): for `R ≥ 1`,
    `convert(convert(x, base, C), C, base)` is within one unit at the smaller
    of the two decimal scales of `x`. -/
theorem c3_roundtrip_amended (c : Currency) (x : ℚ)
    (hR : 1 ≤ c.exchange_rate) :
    |c.convert_to_base (c.convert_from_base x) - x|
      ≤ 1 / 10 ^ (min 2 c.decimal_places) := by
  have hRpos : 0 < c.exchange_rate := lt_of_lt_of_le zero_lt_one hR
  have hR0 : ¬ (c.exchange_rate = 0) := ne_of_gt hRpos
  set R := c.exchange_rate with hRdef
  set d := c.decimal_places with hddef
  rw [Currency.convert_from_base, if_neg hR0, Currency.convert_to_base, if_neg hR0]
  set Q1 := quantizeHalfUp d (x * R) with hQ1
  have h1 : |Q1 - x * R| ≤ 1 / (2 * 10 ^ d) := abs_quantizeHalfUp_sub_le d (x * R)
  have h2 : |quantizeHalfUp 2 (Q1 / R) - Q1 / R| ≤ 1 / (2 * 10 ^ (2:ℕ)) :=
    abs_quantizeHalfUp_sub_le 2 (Q1 / R)
  have hA : (0:ℚ) < 10 ^ d := by positivity
  have hB : (0:ℚ) < 10 ^ (2:ℕ) := by positivity
  have key : quantizeHalfUp 2 (Q1 / R) - x
      = (quantizeHalfUp 2 (Q1 / R) - Q1 / R) + (Q1 - x * R) / R := by
    field_simp
    ring
  have habs : |quantizeHalfUp 2 (Q1 / R) - x|
      ≤ |quantizeHalfUp 2 (Q1 / R) - Q1 / R| + |(Q1 - x * R) / R| := by
    rw [key]; exact abs_add _ _
  have hdiv : |(Q1 - x * R) / R| ≤ 1 / (2 * 10 ^ d) := by
    rw [abs_div, abs_of_pos hRpos]
    calc |Q1 - x * R| / R ≤ |Q1 - x * R| / 1 := by
          apply div_le_div_of_nonneg_left (abs_nonneg _) one_pos hR
      _ = |Q1 - x * R| := div_one _
      _ ≤ 1 / (2 * 10 ^ d) := h1
  have hsum : |quantizeHalfUp 2 (Q1 / R) - x|
      ≤ 1 / (2 * 10 ^ (2:ℕ)) + 1 / (2 * 10 ^ d) := by linarith
  rcases le_total d 2 with hd | hd
  · rw [min_eq_right hd]
    have hpow : (10:ℚ) ^ d ≤ 10 ^ (2:ℕ) :=
      pow_le_pow_right₀ (by norm_num) hd
    have hstep : (1:ℚ) / (2 * 10 ^ (2:ℕ)) ≤ 1 / (2 * 10 ^ d) :=
      one_div_le_one_div_of_le (by positivity) (by linarith)
    have hfin : (1:ℚ) / (2 * 10 ^ d) + 1 / (2 * 10 ^ d) = 1 / 10 ^ d := by
      field_simp
      ring
    linarith
  · rw [min_eq_left hd]
    have hpow : (10:ℚ) ^ (2:ℕ) ≤ 10 ^ d :=
      pow_le_pow_right₀ (by norm_num) hd
    have hstep : (1:ℚ) / (2 * 10 ^ d) ≤ 1 / (2 * 10 ^ (2:ℕ)) :=
      one_div_le_one_div_of_le (by positivity) (by linarith)
    have hfin : (1:ℚ) / (2 * 10 ^ (2:ℕ)) + 1 / (2 * 10 ^ (2:ℕ))
        = 1 / 10 ^ (2:ℕ) := by
      field_simp
      ring
    linarith

/-- C3, witness: the amended round-trip bound applied at rate `1`,
    two decimal places and amount `1/3`. -/
theorem c3_witness :
    (1:ℚ) ≤ 1 ∧
    |Currency.convert_to_base
        { id := 1, code := "USD", name := "Dollar", symbol := "$",
          decimal_places := 2, exchange_rate := 1, is_active := true,
          is_deleted := false, last_updated := none, deleted_at := none,
          sort_order := 0 }
        (Currency.convert_from_base
          { id := 1, code := "USD", name := "Dollar", symbol := "$",
            decimal_places := 2, exchange_rate := 1, is_active := true,
            is_deleted := false, last_updated := none, deleted_at := none,
            sort_order := 0 } (1/3)) - 1/3|
      ≤ 1 / 10 ^ (min 2 2) :=
  ⟨le_rfl, c3_roundtrip_amended _ (1/3) le_rfl⟩

/-! ### C1: the conversion endpoint implements the base pivot -/

/-- `convert_from_base` without the zero-rate branch: at rate zero the
    sentinel `0` coincides with quantizing `b * 0`. -/
theorem convert_from_base_eq_quantize (c : Currency) (b : ℚ) :
    c.convert_from_base b
      = quantizeHalfUp c.decimal_places (b * c.exchange_rate) := by
  unfold Currency.convert_from_base
  by_cases h : c.exchange_rate = 0
  · rw [if_pos h, h, mul_zero, quantizeHalfUp_zero]
  · rw [if_neg h]

/-- Pivot resolution of one code against the registry: `some none` when the
    code is the base itself, `some (some c)` the active registered currency,
    `none` a lookup miss. -/
def lookupNonBase (currencies : List Currency) (base code : String) :
    Option (Option Currency) :=
  if code = base then some none else (findActive currencies code).map some

/-- The spec's base amount: `amount` when converting from the base, else
    `amount / fromCurrency.exchange_rate` rounded half-up to 2 places. -/
def specPivotBaseAmount (fc? : Option Currency) (x : ℚ) : ℚ :=
  match fc? with
  | none => x
  | some fc => quantizeHalfUp 2 (x / fc.exchange_rate)

/-- The spec's conversion result: the base amount when converting into the
    base, else `baseAmount * toCurrency.exchange_rate` rounded half-up to the
    target's `decimal_places`. -/
def specPivotResult (fc? tc? : Option Currency) (x : ℚ) : ℚ :=
  match tc? with
  | none => specPivotBaseAmount fc? x
  | some tc =>
    quantizeHalfUp tc.decimal_places (specPivotBaseAmount fc? x * tc.exchange_rate)

/-- The reported composite rate, an absent (base) side counting as rate 1. -/
def specEffectiveRate (fc? tc? : Option Currency) : ℚ :=
  ((tc?.map Currency.exchange_rate).getD 1)
    / ((fc?.map Currency.exchange_rate).getD 1)

/-- Control-flow characterization of `api_convert` by the two lookups. -/
theorem api_convert_cases (currencies : List Currency)
    (settings : CurrencySettings) (fromParam toParam : String) (x : ℚ)
    (hf : strUpper fromParam ≠ "") (ht : strUpper toParam ≠ "") :
    api_convert currencies settings fromParam toParam x =
      (match lookupNonBase currencies (strUpper settings.base_currency) (strUpper fromParam),
             lookupNonBase currencies (strUpper settings.base_currency) (strUpper toParam) with
       | none, _ => ConvertOutcome.notFound (strUpper fromParam)
       | some _, none => ConvertOutcome.notFound (strUpper toParam)
       | some fc?, some tc? =>
         let base_amount := match fc? with
           | some fc => fc.convert_to_base x
           | none => x
         let result := match tc? with
           | some tc => tc.convert_from_base base_amount
           | none => base_amount
         if ((fc?.map Currency.exchange_rate).getD 1) = 0 then
           ConvertOutcome.divisionError
         else
           ConvertOutcome.ok result
             (((tc?.map Currency.exchange_rate).getD 1)
               / ((fc?.map Currency.exchange_rate).getD 1))) := by
  unfold api_convert lookupNonBase
  rw [if_neg (by simp [hf, ht])]
  by_cases hfb : strUpper fromParam = strUpper settings.base_currency
  · by_cases htb : strUpper toParam = strUpper settings.base_currency
    · simp [hfb, htb]
    · cases hft : findActive currencies (strUpper toParam) <;> simp [hfb, htb, hft]
  · cases hff : findActive currencies (strUpper fromParam)
    · simp [hfb, hff]
    · by_cases htb : strUpper toParam = strUpper settings.base_currency
      · simp [hfb, htb, hff]
      · cases hft : findActive currencies (strUpper toParam) <;>
          simp [hfb, htb, hff, hft]

/-- C1: for valid (non-empty) codes, the conversion endpoint fails with a
    not-found error as soon as a non-base code has no active, non-deleted
    registered currency (source side checked first); and when both codes are
    the base or resolve, with a nonzero rate on a resolved source currency,
    the result is exactly the spec's base-pivot computation — base amount
    `amount` (from = base) or `amount / fromRate` rounded half-up to 2
    places, result `baseAmount` (to = base) or `baseAmount * toRate` rounded
    half-up to the target's decimal places — with reported composite rate
    `toRate / fromRate`; no other computation path is used. -/
theorem c1_convert_base_pivot (currencies : List Currency)
    (settings : CurrencySettings) (fromParam toParam : String) (x : ℚ)
    (hf : strUpper fromParam ≠ "") (ht : strUpper toParam ≠ "") :
    (lookupNonBase currencies (strUpper settings.base_currency) (strUpper fromParam) = none →
      api_convert currencies settings fromParam toParam x
        = .notFound (strUpper fromParam)) ∧
    (∀ fc?, lookupNonBase currencies (strUpper settings.base_currency) (strUpper fromParam)
        = some fc? →
      lookupNonBase currencies (strUpper settings.base_currency) (strUpper toParam) = none →
      api_convert currencies settings fromParam toParam x
        = .notFound (strUpper toParam)) ∧
    (∀ fc? tc?,
      lookupNonBase currencies (strUpper settings.base_currency) (strUpper fromParam)
        = some fc? →
      lookupNonBase currencies (strUpper settings.base_currency) (strUpper toParam)
        = some tc? →
      (∀ fc, fc? = some fc → fc.exchange_rate ≠ 0) →
      api_convert currencies settings fromParam toParam x
        = .ok (specPivotResult fc? tc? x) (specEffectiveRate fc? tc?)) := by
  rw [api_convert_cases currencies settings fromParam toParam x hf ht]
  refine ⟨fun h1 => by simp only [h1], fun fc? h1 h2 => by simp only [h1, h2], ?_⟩
  intro fc? tc? h1 h2 hrate
  simp only [h1, h2]
  cases fc? with
  | none =>
    cases tc? with
    | none =>
      simp [specPivotResult, specPivotBaseAmount, specEffectiveRate]
    | some tc =>
      simp [specPivotResult, specPivotBaseAmount, specEffectiveRate,
            convert_from_base_eq_quantize]
  | some fc =>
    have hfc0 : fc.exchange_rate ≠ 0 := hrate fc rfl
    cases tc? with
    | none =>
      simp [specPivotResult, specPivotBaseAmount, specEffectiveRate,
            Currency.convert_to_base, hfc0]
    | some tc =>
      simp [specPivotResult, specPivotBaseAmount, specEffectiveRate,
            Currency.convert_to_base, convert_from_base_eq_quantize, hfc0]

/-- C1, witness: registry `[USD, rate 2]`, base `EUR`: converting 1 USD to
    EUR resolves the source currency, takes the pivot path and reports rate
    `1/2`. -/
theorem c1_witness :
    (strUpper "USD" ≠ "") ∧ (strUpper "EUR" ≠ "") ∧
    (let usd : Currency :=
      { id := 1, code := "USD", name := "Dollar", symbol := "$",
        decimal_places := 2, exchange_rate := 2, is_active := true,
        is_deleted := false, last_updated := none, deleted_at := none,
        sort_order := 0 }
     let settings : CurrencySettings :=
      { base_currency := "EUR", rate_source := "manual", api_key := "" }
     ∀ fc? tc?,
      lookupNonBase [usd] (strUpper settings.base_currency) (strUpper "USD") = some fc? →
      lookupNonBase [usd] (strUpper settings.base_currency) (strUpper "EUR") = some tc? →
      (∀ fc, fc? = some fc → fc.exchange_rate ≠ 0) →
      api_convert [usd] settings "USD" "EUR" 1
        = .ok (specPivotResult fc? tc? 1) (specEffectiveRate fc? tc?)) :=
  ⟨by decide, by decide,
    (c1_convert_base_pivot _ _ "USD" "EUR" 1 (by decide) (by decide)).2.2⟩

/-! ### C2: zero-rate behavior of the conversion endpoint -/

/-- C2, counterexample: with a registered active currency `ZZZ` whose rate is
    zero, converting from `ZZZ` into the base yields the monetary result `0`
    as specified, but the endpoint then divides by the zero source rate while
    building the reported effective rate (`src/views.py:449`) and raises —
    the conversion endpoint does not complete. -/
theorem c2_counterexample :
    api_convert
      [{ id := 1, code := "ZZZ", name := "Zero", symbol := "z",
         decimal_places := 2, exchange_rate := 0, is_active := true,
         is_deleted := false, last_updated := none, deleted_at := none,
         sort_order := 0 }]
      { base_currency := "EUR", rate_source := "manual", api_key := "" }
      "ZZZ" "EUR" 5 = .divisionError := by
  with_unfolding_all decide

/-- C2, amended: for a registered active currency with `exchange_rate = 0`,
    the monetary computations `convert_from_base` and `convert_to_base`
    return `0` without raising for every amount (negative included), and the
    endpoint completes with result `0` (rate `0`) when converting from the
    base into the zero-rate currency; converting FROM the zero-rate currency
    — into the base or any target that is the base or resolves — raises a
    division-by-zero in the effective-rate computation, so the endpoint
    errors there instead of completing. -/
theorem c2_zero_rate_amended (currencies : List Currency)
    (settings : CurrencySettings) (codeParam : String) (x : ℚ) (c : Currency)
    (hbase : strUpper settings.base_currency ≠ "")
    (hcode : strUpper codeParam ≠ "")
    (hne : strUpper codeParam ≠ strUpper settings.base_currency)
    (hfind : findActive currencies (strUpper codeParam) = some c)
    (hzero : c.exchange_rate = 0) :
    c.convert_from_base x = 0 ∧ c.convert_to_base x = 0 ∧
    api_convert currencies settings settings.base_currency codeParam x
      = .ok 0 0 ∧
    api_convert currencies settings codeParam settings.base_currency x
      = .divisionError ∧
    (∀ toParam : String, strUpper toParam ≠ "" →
      lookupNonBase currencies (strUpper settings.base_currency)
        (strUpper toParam) ≠ none →
      api_convert currencies settings codeParam toParam x
        = .divisionError) := by
  have hl1 : lookupNonBase currencies (strUpper settings.base_currency)
      (strUpper settings.base_currency) = some none := by
    rw [lookupNonBase, if_pos rfl]
  have hl2 : lookupNonBase currencies (strUpper settings.base_currency)
      (strUpper codeParam) = some (some c) := by
    rw [lookupNonBase, if_neg hne, hfind]
    rfl
  refine ⟨?_, ?_, ?_, ?_, ?_⟩
  · rw [Currency.convert_from_base, if_pos hzero]
  · rw [Currency.convert_to_base, if_pos hzero]
  · rw [api_convert_cases currencies settings settings.base_currency codeParam
      x hbase hcode]
    simp only [hl1, hl2]
    simp [Currency.convert_from_base, hzero]
  · rw [api_convert_cases currencies settings codeParam settings.base_currency
      x hcode hbase]
    simp only [hl1, hl2]
    simp [hzero]
  · intro toParam htne htl
    rw [api_convert_cases currencies settings codeParam toParam x hcode htne]
    cases htl' : lookupNonBase currencies (strUpper settings.base_currency)
        (strUpper toParam) with
    | none => exact absurd htl' htl
    | some tc? =>
      simp only [hl2, htl']
      simp [hzero]

/-- C2, witness: the amended statement applied at the concrete zero-rate
    currency `ZRO` with base `EUR` and amount `-7`. -/
theorem c2_witness :
    (let zro : Currency :=
      { id := 1, code := "ZRO", name := "Zero", symbol := "z",
        decimal_places := 2, exchange_rate := 0, is_active := true,
        is_deleted := false, last_updated := none, deleted_at := none,
        sort_order := 0 }
     let settings : CurrencySettings :=
      { base_currency := "EUR", rate_source := "manual", api_key := "" }
     zro.convert_from_base (-7) = 0 ∧ zro.convert_to_base (-7) = 0 ∧
     api_convert [zro] settings settings.base_currency "ZRO" (-7) = .ok 0 0 ∧
     api_convert [zro] settings "ZRO" settings.base_currency (-7)
       = .divisionError ∧
     (∀ toParam : String, strUpper toParam ≠ "" →
      lookupNonBase [zro] (strUpper settings.base_currency)
        (strUpper toParam) ≠ none →
      api_convert [zro] settings "ZRO" toParam (-7) = .divisionError)) :=
  c2_zero_rate_amended _ _ "ZRO" (-7) _
    (by with_unfolding_all decide) (by with_unfolding_all decide)
    (by with_unfolding_all decide) (by with_unfolding_all decide) rfl

/-! ### C8: identical source and target code -/

/-- C8, counterexample: with `USD` registered at rate 3 (2 decimal places),
    `convert(1, USD, USD)` reports effective rate 1 but returns `0.99`, not
    the amount unchanged: the self-conversion still routes through the base
    pivot and double-rounds (`1/3 → 0.33 → 0.99`). -/
theorem c8_counterexample :
    api_convert
      [{ id := 1, code := "USD", name := "Dollar", symbol := "$",
         decimal_places := 2, exchange_rate := 3, is_active := true,
         is_deleted := false, last_updated := none, deleted_at := none,
         sort_order := 0 }]
      { base_currency := "EUR", rate_source := "manual", api_key := "" }
      "USD" "USD" 1 = .ok (99/100) 1 ∧ (99/100 : ℚ) ≠ 1 := by
  constructor
  · with_unfolding_all decide
  · norm_num

/-- C8, amended: self-conversion reports effective rate 1 (for a nonzero
    rate) but returns the amount unchanged only when the code is the base;
    for a registered non-base currency the result is the double-rounded
    pivot value `convert_from_base (convert_to_base x)`, which can differ
    from `x`. -/
theorem c8_self_convert_amended (currencies : List Currency)
    (settings : CurrencySettings) (codeParam : String) (x : ℚ)
    (hcode : strUpper codeParam ≠ "") :
    (strUpper codeParam = strUpper settings.base_currency →
      api_convert currencies settings codeParam codeParam x = .ok x 1) ∧
    (∀ c, strUpper codeParam ≠ strUpper settings.base_currency →
      findActive currencies (strUpper codeParam) = some c →
      c.exchange_rate ≠ 0 →
      api_convert currencies settings codeParam codeParam x
        = .ok (c.convert_from_base (c.convert_to_base x)) 1) := by
  rw [api_convert_cases currencies settings codeParam codeParam x hcode hcode]
  constructor
  · intro hb
    have hl : lookupNonBase currencies (strUpper settings.base_currency)
        (strUpper codeParam) = some none := by
      rw [lookupNonBase, if_pos hb]
    simp only [hl]
    norm_num
  · intro c hb hfind hr
    have hl : lookupNonBase currencies (strUpper settings.base_currency)
        (strUpper codeParam) = some (some c) := by
      rw [lookupNonBase, if_neg hb, hfind]
      rfl
    simp only [hl]
    simp [hr, div_self]

/-- C8, witness: the amended statement's non-base branch applied with `USD`
    at rate 2 and amount 5. -/
theorem c8_witness :
    (let usd : Currency :=
      { id := 1, code := "USD", name := "Dollar", symbol := "$",
        decimal_places := 2, exchange_rate := 2, is_active := true,
        is_deleted := false, last_updated := none, deleted_at := none,
        sort_order := 0 }
     let settings : CurrencySettings :=
      { base_currency := "EUR", rate_source := "manual", api_key := "" }
     api_convert [usd] settings "USD" "USD" 5
       = .ok (usd.convert_from_base (usd.convert_to_base 5)) 1) :=
  (c8_self_convert_amended _ _ "USD" 5 (by with_unfolding_all decide)).2 _
    (by with_unfolding_all decide) (by with_unfolding_all decide)
    (by with_unfolding_all decide)

/-! ### C10: the two conversion implementations -/

/-- A rational that is exactly representable with `d` decimal places. -/
def isDecimal (d : ℕ) (q : ℚ) : Prop := (q * 10 ^ d).den = 1

instance (d : ℕ) (q : ℚ) : Decidable (isDecimal d q) := by
  unfold isDecimal; infer_instance

/-- Half-up rounding fixes integers. -/
theorem roundHalfUpInt_intValued {q : ℚ} (h : q.den = 1) :
    roundHalfUpInt q = q.num := by
  have hq : ((q.num : ℚ)) = q := by
    conv_rhs => rw [← Rat.num_div_den q]
    rw [h]
    norm_num
  have hhalf : ⌊(1:ℚ)/2⌋ = 0 := by
    rw [Int.floor_eq_zero_iff]
    constructor <;> norm_num
  unfold roundHalfUpInt
  by_cases h0 : 0 ≤ q
  · rw [if_pos h0, ratFloor_eq_intFloor, ← hq, Int.floor_int_add, hhalf,
      add_zero, Rat.num_intCast]
  · rw [if_neg h0, ratFloor_eq_intFloor, ← hq]
    rw [show -((q.num : ℚ)) = ((-q.num : ℤ) : ℚ) by push_cast; ring]
    rw [Int.floor_int_add, hhalf, add_zero, neg_neg, Rat.num_intCast]

/-- Half-even rounding fixes integers. -/
theorem roundHalfEvenInt_intValued {q : ℚ} (h : q.den = 1) :
    roundHalfEvenInt q = q.num := by
  have hfloor : q.floor = q.num := by
    rw [Rat.floor_def', h]
    norm_num
  unfold roundHalfEvenInt
  rw [hfloor, h]
  norm_num

/-- Half-up quantization fixes exact `d`-decimal values. -/
theorem quantizeHalfUp_fix {d : ℕ} {q : ℚ} (h : isDecimal d q) :
    quantizeHalfUp d q = q := by
  unfold isDecimal at h
  have hq : (((q * 10 ^ d).num : ℚ)) = q * 10 ^ d := by
    conv_rhs => rw [← Rat.num_div_den (q * 10 ^ d)]
    rw [h]
    norm_num
  rw [quantizeHalfUp, roundHalfUpInt_intValued h, Rat.divInt_eq_div]
  push_cast
  rw [hq]
  field_simp

/-- Half-even quantization fixes exact `d`-decimal values. -/
theorem quantizeHalfEven_fix {d : ℕ} {q : ℚ} (h : isDecimal d q) :
    quantizeHalfEven d q = q := by
  unfold isDecimal at h
  have hq : (((q * 10 ^ d).num : ℚ)) = q * 10 ^ d := by
    conv_rhs => rw [← Rat.num_div_den (q * 10 ^ d)]
    rw [h]
    norm_num
  rw [quantizeHalfEven, roundHalfEvenInt_intValued h, Rat.divInt_eq_div]
  push_cast
  rw [hq]
  field_simp

/-- C10, counterexample: converting amount 1 from a rate-3 currency to a
    rate-2 currency (both 2 decimal places), the assistant tool rounds once
    (`1/3·2 = 0.666… → 0.67`) while the model/view path double-rounds
    (`1/3 → 0.33`, `0.33·2 → 0.66`): the two implementations disagree. -/
theorem c10_counterexample :
    let f : Currency :=
      { id := 1, code := "AAA", name := "A", symbol := "a",
        decimal_places := 2, exchange_rate := 3, is_active := true,
        is_deleted := false, last_updated := none, deleted_at := none,
        sort_order := 0 }
    let t : Currency :=
      { id := 2, code := "BBB", name := "B", symbol := "b",
        decimal_places := 2, exchange_rate := 2, is_active := true,
        is_deleted := false, last_updated := none, deleted_at := none,
        sort_order := 0 }
    convert_currency_tool f t 1 = 67/100 ∧
    t.convert_from_base (f.convert_to_base 1) = 66/100 ∧
    (67/100 : ℚ) ≠ 66/100 := by
  refine ⟨by with_unfolding_all decide, by with_unfolding_all decide, ?_⟩
  norm_num

/-- C10, amended: the tool (one half-even rounding, amount passed through on
    a zero source rate) and the model/view path (two half-up roundings, zero
    on a zero rate) disagree in general; they do agree whenever no rounding
    occurs: for a nonzero source rate, if the exact base amount
    `x / fromRate` is a 2-decimal value and its product with the target rate
    is a `decimal_places`-decimal value, both return that exact product. -/
theorem c10_agreement_amended (from_curr to_curr : Currency) (x : ℚ)
    (hf : from_curr.exchange_rate ≠ 0)
    (hb : isDecimal 2 (x / from_curr.exchange_rate))
    (ht : isDecimal to_curr.decimal_places
            ((x / from_curr.exchange_rate) * to_curr.exchange_rate)) :
    convert_currency_tool from_curr to_curr x
      = to_curr.convert_from_base (from_curr.convert_to_base x) ∧
    convert_currency_tool from_curr to_curr x
      = (x / from_curr.exchange_rate) * to_curr.exchange_rate := by
  have h1 : convert_currency_tool from_curr to_curr x
      = quantizeHalfEven to_curr.decimal_places
          ((x / from_curr.exchange_rate) * to_curr.exchange_rate) := by
    unfold convert_currency_tool
    rw [if_pos hf]
  have h2 : from_curr.convert_to_base x = x / from_curr.exchange_rate := by
    rw [Currency.convert_to_base, if_neg hf, quantizeHalfUp_fix hb]
  rw [h1, quantizeHalfEven_fix ht, h2, convert_from_base_eq_quantize,
    quantizeHalfUp_fix ht]
  exact ⟨rfl, rfl⟩

/-- C10, witness: amount 4 from rate 2 to rate 3: base amount 2 and product 6
    are exact, and both implementations return 6. -/
theorem c10_witness :
    (let f : Currency :=
      { id := 1, code := "AAA", name := "A", symbol := "a",
        decimal_places := 2, exchange_rate := 2, is_active := true,
        is_deleted := false, last_updated := none, deleted_at := none,
        sort_order := 0 }
     let t : Currency :=
      { id := 2, code := "BBB", name := "B", symbol := "b",
        decimal_places := 2, exchange_rate := 3, is_active := true,
        is_deleted := false, last_updated := none, deleted_at := none,
        sort_order := 0 }
     convert_currency_tool f t 4
       = t.convert_from_base (f.convert_to_base 4) ∧
     convert_currency_tool f t 4
       = ((4:ℚ) / f.exchange_rate) * t.exchange_rate) :=
  c10_agreement_amended _ _ 4 (by with_unfolding_all decide)
    (by with_unfolding_all decide) (by with_unfolding_all decide)

/-! ### C6: manual rate source rejects the orchestrator -/

/-- C6: whenever the configured rate source is `manual`, the rate-update
    orchestrator fails immediately with the manual-source policy error and
    returns the state untouched (no currency and no history mutation),
    whatever the fetch would have produced — the fetch result is never
    consulted. -/
theorem c6_manual_source_rejected (settings : CurrencySettings)
    (fetch : FetchResult) (now : ℕ) (st : HubState)
    (h : settings.rate_source = "manual") :
    update_rates settings fetch now st = (.manualSourceError, st) := by
  unfold update_rates
  rw [if_pos h]

/-- C6, witness: applied at a failed fetch and a one-currency state. -/
theorem c6_witness :
    (({ base_currency := "EUR", rate_source := "manual", api_key := "" }
        : CurrencySettings).rate_source = "manual") ∧
    update_rates
      { base_currency := "EUR", rate_source := "manual", api_key := "" }
      (.error ()) 7
      ⟨[{ id := 1, code := "USD", name := "Dollar", symbol := "$",
          decimal_places := 2, exchange_rate := 2, is_active := true,
          is_deleted := false, last_updated := none, deleted_at := none,
          sort_order := 0 }], [], []⟩
      = (.manualSourceError,
        ⟨[{ id := 1, code := "USD", name := "Dollar", symbol := "$",
            decimal_places := 2, exchange_rate := 2, is_active := true,
            is_deleted := false, last_updated := none, deleted_at := none,
            sort_order := 0 }], [], []⟩) :=
  ⟨rfl, c6_manual_source_rejected _ _ 7 _ rfl⟩

/-! ### C4: history entries on add and edit -/

/-- C4, counterexample: the assistant add-currency tool
    (`AddCurrency.execute`) creates the currency but writes no
    `ExchangeRateHistory` row at all, so "every add-currency operation
    creates exactly one history entry" is false on the code. -/
theorem c4_counterexample :
    (add_currency_tool ⟨[], [], []⟩ "usd" "US Dollar" "$" (3/2) 2 1).history
      = [] ∧
    (add_currency_tool ⟨[], [], []⟩ "usd" "US Dollar" "$" (3/2) 2 1).currencies
      ≠ [] := by
  constructor
  · rfl
  · with_unfolding_all decide

/-- C4, amended: the currency-create view appends exactly one history entry
    with source `manual`; the assistant add-currency tool appends none; the
    edit view appends exactly one entry iff the submitted rate differs from
    the stored one, and none otherwise. -/
theorem c4_history_policy_amended :
    (∀ (st : HubState) (form : CurrencyFormData) (newId now : ℕ),
      (currency_create st form newId now).history
        = st.history ++ [⟨newId, form.exchange_rate, "manual"⟩]) ∧
    (∀ (st : HubState) (code name symbol : String) (rate : ℚ) (dp newId : ℕ),
      (add_currency_tool st code name symbol rate dp newId).history
        = st.history) ∧
    (∀ (st : HubState) (pk : ℕ) (form : CurrencyFormData) (now : ℕ)
        (c : Currency) (st' : HubState),
      st.currencies.find? (fun x => x.id == pk && !x.is_deleted) = some c →
      currency_edit st pk form now = some st' →
      st'.history =
        (if c.exchange_rate = form.exchange_rate then st.history
         else st.history ++ [⟨c.id, form.exchange_rate, "manual"⟩])) := by
  refine ⟨fun st form newId now => rfl, fun st code name symbol rate dp newId => rfl, ?_⟩
  intro st pk form now c st' hfind hedit
  rw [currency_edit, hfind] at hedit
  simp only [Option.some.injEq] at hedit
  subst hedit
  by_cases hch : c.exchange_rate = form.exchange_rate
  · simp [hch]
  · simp [hch]

/-- C4, witness: editing `USD` (stored rate 2) with submitted rate 3 appends
    exactly the one `manual` entry for the changed rate. -/
theorem c4_witness :
    (let usd : Currency :=
      { id := 1, code := "USD", name := "Dollar", symbol := "$",
        decimal_places := 2, exchange_rate := 2, is_active := true,
        is_deleted := false, last_updated := none, deleted_at := none,
        sort_order := 0 }
     let st0 : HubState := ⟨[usd], [], []⟩
     let form0 : CurrencyFormData :=
      { code := "USD", name := "Dollar", symbol := "$", decimal_places := 2,
        exchange_rate := 3, is_active := true, sort_order := 0 }
     ((currency_edit st0 1 form0 5).getD st0).history =
       (if usd.exchange_rate = form0.exchange_rate then st0.history
        else st0.history ++ [⟨usd.id, form0.exchange_rate, "manual"⟩])) :=
  c4_history_policy_amended.2.2 _ 1 _ 5 _ _
    (by with_unfolding_all decide) (by with_unfolding_all decide)

/-! ### C9: soft delete of a currency -/

/-- C9: deleting a currency referenced by a non-deleted payment is rejected
    and leaves the whole state (in particular the currency's deleted flag)
    unchanged; deleting one without such payments keeps the row and the
    history, changing only the deletion flags of that row. -/
theorem c9_delete_spec (st : HubState) (pk now : ℕ) (c : Currency)
    (hfind : st.currencies.find? (fun x => x.id == pk && !x.is_deleted)
      = some c) :
    (st.payments.any (fun p => p.currency_id == some c.id && !p.is_deleted)
        = true →
      currency_delete st pk now = (.hasPayments, st)) ∧
    (st.payments.any (fun p => p.currency_id == some c.id && !p.is_deleted)
        = false →
      (currency_delete st pk now).1 = .deleted ∧
      (currency_delete st pk now).2.history = st.history ∧
      (currency_delete st pk now).2.payments = st.payments ∧
      (currency_delete st pk now).2.currencies.length
        = st.currencies.length ∧
      { c with is_deleted := true, deleted_at := some now }
        ∈ (currency_delete st pk now).2.currencies ∧
      (∀ x ∈ st.currencies, x.id ≠ pk →
        x ∈ (currency_delete st pk now).2.currencies)) := by
  have hc_mem : c ∈ st.currencies := List.mem_of_find?_eq_some hfind
  have hc_pred := List.find?_some hfind
  simp only [Bool.and_eq_true, beq_iff_eq] at hc_pred
  have hc_id : c.id = pk := hc_pred.1
  constructor
  · intro hpay
    rw [currency_delete, hfind]
    simp only [hpay]
    rfl
  · intro hpay
    rw [currency_delete, hfind]
    simp only [hpay]
    refine ⟨rfl, rfl, rfl, by simp, ?_, ?_⟩
    · have : (fun x => if x.id = pk then
          { x with is_deleted := true, deleted_at := some now } else x) c
          = { c with is_deleted := true, deleted_at := some now } := by
        simp [hc_id]
      rw [← this]
      exact List.mem_map_of_mem _ hc_mem
    · intro x hx hxid
      have : (fun y => if y.id = pk then
          { y with is_deleted := true, deleted_at := some now } else y) x
          = x := by
        simp [hxid]
      rw [← this]
      exact List.mem_map_of_mem _ hx

/-- C9, witness: a one-currency state with one payment referencing it — the
    delete is rejected and the state is unchanged. -/
theorem c9_witness :
    (let usd : Currency :=
      { id := 1, code := "USD", name := "Dollar", symbol := "$",
        decimal_places := 2, exchange_rate := 2, is_active := true,
        is_deleted := false, last_updated := none, deleted_at := none,
        sort_order := 0 }
     let st0 : HubState :=
       ⟨[usd], [], [{ currency_id := some 1, is_deleted := false }]⟩
     st0.currencies.find? (fun x => x.id == 1 && !x.is_deleted) = some usd ∧
     (st0.payments.any (fun p => p.currency_id == some usd.id && !p.is_deleted)
        = true →
      currency_delete st0 1 9 = (.hasPayments, st0))) :=
  ⟨by with_unfolding_all decide,
    (c9_delete_spec _ 1 9 _ (by with_unfolding_all decide)).1⟩

/-! ### C5: the ECB reconciliation -/

/-- The imperative update loop decomposes into a map over the registry plus
    `filterMap`s collecting the history appends and warnings, in order. -/
theorem rateLoop_eq (step : Currency → Currency × Option RateHistoryEntry × Option String)
    (l : List Currency) :
    rateLoop step l =
      (l.map (fun c => (step c).1),
       l.filterMap (fun c => (step c).2.1),
       l.filterMap (fun c => (step c).2.2)) := by
  induction l with
  | nil => rfl
  | cons c rest ih =>
    simp only [rateLoop, ih, List.map_cons, List.filterMap_cons]
    rcases hstep : step c with ⟨c', o1, o2⟩
    cases o1 <;> cases o2 <;> simp [hstep, Option.toList]

/-- Inactive or soft-deleted rows are outside the queryset: untouched. -/
theorem ecbStep_skip_inactive (feed : List (String × ℚ)) (base : String)
    (now : ℕ) (c : Currency)
    (h : ¬(c.is_active = true ∧ c.is_deleted = false)) :
    ecbStep feed base now c = (c, none, none) := by
  have hb : ¬((c.is_active && !c.is_deleted) = true) := by
    simp only [Bool.and_eq_true, Bool.not_eq_true']
    exact h
  unfold ecbStep
  rw [if_neg hb]

/-- The base currency itself is always skipped. -/
theorem ecbStep_skip_base (feed : List (String × ℚ)) (base : String)
    (now : ℕ) (c : Currency) (h1 : c.is_active = true)
    (h2 : c.is_deleted = false) (hb : strUpper c.code = base) :
    ecbStep feed base now c = (c, none, none) := by
  unfold ecbStep
  rw [if_pos (by simp [h1, h2]), if_pos hb]

/-- A resolved currency: rate quantized to 6 places, `last_updated` stamped,
    one history entry tagged `ecb`, no warning. -/
theorem ecbStep_resolved (feed : List (String × ℚ)) (base : String)
    (now : ℕ) (c : Currency) (r : ℚ) (h1 : c.is_active = true)
    (h2 : c.is_deleted = false) (hb : strUpper c.code ≠ base)
    (hr : resolveEcbRate feed base (strUpper c.code) = some r) :
    ecbStep feed base now c =
      ({ c with
          exchange_rate := quantizeHalfEven 6 r, last_updated := some now },
        some ⟨c.id, quantizeHalfEven 6 r, "ecb"⟩, none) := by
  unfold ecbStep
  rw [if_pos (by simp [h1, h2]), if_neg hb, hr]

/-- An unresolvable currency: untouched, one per-currency warning. -/
theorem ecbStep_unresolved (feed : List (String × ℚ)) (base : String)
    (now : ℕ) (c : Currency) (h1 : c.is_active = true)
    (h2 : c.is_deleted = false) (hb : strUpper c.code ≠ base)
    (hr : resolveEcbRate feed base (strUpper c.code) = none) :
    ecbStep feed base now c =
      (c, none, some (strUpper c.code ++ ": Not available from ECB")) := by
  unfold ecbStep
  rw [if_pos (by simp [h1, h2]), if_neg hb, hr]

/-- A resolved rate always comes from one of the three spec cases:
    (a) the base is the feed anchor EUR and the code is in the feed — the
    feed rate is used directly; (b) the code is the anchor and the base is in
    the feed — the reciprocal of the base's feed rate; (c) both are in the
    feed — the cross rate `feed[code] / feed[base]`. -/
theorem resolveEcbRate_some_cases (feed : List (String × ℚ))
    (base code : String) (r : ℚ)
    (h : resolveEcbRate feed base code = some r) :
    (base = "EUR" ∧ feedLookup feed code = some r) ∨
    (code = "EUR" ∧ ∃ rb, feedLookup feed base = some rb ∧ r = 1 / rb) ∨
    (∃ rb rc, feedLookup feed base = some rb ∧ feedLookup feed code = some rc
      ∧ r = rc / rb) := by
  unfold resolveEcbRate at h
  by_cases h1 : base = "EUR" ∧ (feedLookup feed code).isSome
  · rw [if_pos h1] at h
    exact Or.inl ⟨h1.1, h⟩
  · rw [if_neg h1] at h
    by_cases h2 : (feedLookup feed base).isSome ∧ code = "EUR"
    · rw [if_pos h2] at h
      cases hb : feedLookup feed base with
      | none => rw [hb] at h; cases h
      | some rb =>
        rw [hb] at h
        simp only [Option.some.injEq] at h
        exact Or.inr (Or.inl ⟨h2.2, rb, rfl, h.symm⟩)
    · rw [if_neg h2] at h
      by_cases h3 : (feedLookup feed base).isSome ∧ (feedLookup feed code).isSome
      · rw [if_pos h3] at h
        cases hb : feedLookup feed base with
        | none => rw [hb] at h; cases h
        | some rb =>
          cases hc : feedLookup feed code with
          | none => rw [hb, hc] at h; cases h
          | some rc =>
            rw [hb, hc] at h
            simp only [Option.some.injEq] at h
            exact Or.inr (Or.inr ⟨rb, rc, rfl, rfl, h.symm⟩)
      · rw [if_neg h3] at h
        cases h

/-- No rate is resolved exactly when none of the three cases applies. -/
theorem resolveEcbRate_eq_none_iff (feed : List (String × ℚ))
    (base code : String) :
    resolveEcbRate feed base code = none ↔
      ¬(base = "EUR" ∧ (feedLookup feed code).isSome) ∧
      ¬((feedLookup feed base).isSome ∧ code = "EUR") ∧
      ¬((feedLookup feed base).isSome ∧ (feedLookup feed code).isSome) := by
  unfold resolveEcbRate
  by_cases h1 : base = "EUR" ∧ (feedLookup feed code).isSome
  · rw [if_pos h1]
    constructor
    · intro hc
      rw [← Option.not_isSome_iff_eq_none] at hc
      exact absurd h1.2 hc
    · intro h
      exact absurd h1 h.1
  · rw [if_neg h1]
    by_cases h2 : (feedLookup feed base).isSome ∧ code = "EUR"
    · rw [if_pos h2]
      obtain ⟨rb, hb⟩ := Option.isSome_iff_exists.mp h2.1
      rw [hb]
      constructor
      · intro hc
        cases hc
      · intro h
        exact absurd ⟨rfl, h2.2⟩ h.2.1
    · rw [if_neg h2]
      by_cases h3 : (feedLookup feed base).isSome ∧ (feedLookup feed code).isSome
      · rw [if_pos h3]
        obtain ⟨rb, hb⟩ := Option.isSome_iff_exists.mp h3.1
        obtain ⟨rc, hc⟩ := Option.isSome_iff_exists.mp h3.2
        rw [hb, hc]
        constructor
        · intro hcontra
          cases hcontra
        · intro h
          exact absurd ⟨rfl, rfl⟩ h.2.2
      · rw [if_neg h3]
        simp [h1, h2, h3]

/-- C5: an ECB run maps each registry row through the per-currency step and
    appends its history entries and warnings in order, leaving payments
    untouched and reporting one update per appended entry; each active
    non-base row is either resolved by exactly one of the three feed cases
    (rate quantized to 6 decimals, `last_updated` stamped, one entry tagged
    `ecb`) or skipped with a per-currency warning, and the base row and
    inactive rows are never touched. -/
theorem c5_ecb_update_spec (settings : CurrencySettings)
    (feed : List (String × ℚ)) (now : ℕ) (st : HubState)
    (hsrc : settings.rate_source = "ecb") :
    ((update_rates settings (.ok feed) now st).2.currencies
      = st.currencies.map
          (fun c => (ecbStep feed (strUpper settings.base_currency) now c).1) ∧
     (update_rates settings (.ok feed) now st).2.history
      = st.history ++ st.currencies.filterMap
          (fun c => (ecbStep feed (strUpper settings.base_currency) now c).2.1) ∧
     (update_rates settings (.ok feed) now st).2.payments = st.payments ∧
     (update_rates settings (.ok feed) now st).1
      = .okUpdated
          (st.currencies.filterMap
            (fun c => (ecbStep feed (strUpper settings.base_currency) now c).2.1)).length
          (st.currencies.filterMap
            (fun c => (ecbStep feed (strUpper settings.base_currency) now c).2.2))) ∧
    (∀ (base : String) (c : Currency),
      (¬(c.is_active = true ∧ c.is_deleted = false) →
        ecbStep feed base now c = (c, none, none)) ∧
      (c.is_active = true → c.is_deleted = false →
        (strUpper c.code = base → ecbStep feed base now c = (c, none, none)) ∧
        (strUpper c.code ≠ base →
          (∀ r, resolveEcbRate feed base (strUpper c.code) = some r →
            ecbStep feed base now c =
              ({ c with
                  exchange_rate := quantizeHalfEven 6 r,
                  last_updated := some now },
                some ⟨c.id, quantizeHalfEven 6 r, "ecb"⟩, none)) ∧
          (resolveEcbRate feed base (strUpper c.code) = none →
            ecbStep feed base now c =
              (c, none,
                some (strUpper c.code ++ ": Not available from ECB")))))) ∧
    (∀ (base code : String) (r : ℚ),
      resolveEcbRate feed base code = some r →
      (base = "EUR" ∧ feedLookup feed code = some r) ∨
      (code = "EUR" ∧ ∃ rb, feedLookup feed base = some rb ∧ r = 1 / rb) ∨
      (∃ rb rc, feedLookup feed base = some rb ∧
        feedLookup feed code = some rc ∧ r = rc / rb)) ∧
    (∀ (base code : String),
      resolveEcbRate feed base code = none ↔
        ¬(base = "EUR" ∧ (feedLookup feed code).isSome) ∧
        ¬((feedLookup feed base).isSome ∧ code = "EUR") ∧
        ¬((feedLookup feed base).isSome ∧
          (feedLookup feed code).isSome)) := by
  have hrun : update_rates settings (.ok feed) now st
      = (.okUpdated
          (st.currencies.filterMap
            (fun c => (ecbStep feed (strUpper settings.base_currency) now c).2.1)).length
          (st.currencies.filterMap
            (fun c => (ecbStep feed (strUpper settings.base_currency) now c).2.2)),
        { st with
          currencies := st.currencies.map
            (fun c => (ecbStep feed (strUpper settings.base_currency) now c).1),
          history := st.history ++ st.currencies.filterMap
            (fun c => (ecbStep feed (strUpper settings.base_currency) now c).2.1) }) := by
    unfold update_rates
    rw [hsrc]
    rw [if_neg (by decide), if_pos rfl]
    simp only [rateLoop_eq]
  refine ⟨⟨by rw [hrun], by rw [hrun], by rw [hrun], by rw [hrun]⟩, ?_, ?_, ?_⟩
  · intro base c
    refine ⟨fun h => ecbStep_skip_inactive feed base now c h, fun h1 h2 => ⟨?_, ?_⟩⟩
    · exact fun hb => ecbStep_skip_base feed base now c h1 h2 hb
    · intro hb
      exact ⟨fun r hr => ecbStep_resolved feed base now c r h1 h2 hb hr,
        fun hr => ecbStep_unresolved feed base now c h1 h2 hb hr⟩
  · exact fun base code r h => resolveEcbRate_some_cases feed base code r h
  · exact fun base code => resolveEcbRate_eq_none_iff feed base code

/-- C5, witness: a concrete ECB run (base `EUR`, feed `{USD ↦ 2}`, one
    active USD row) exercising the run-shape conjunct. -/
theorem c5_witness :
    (({ base_currency := "EUR", rate_source := "ecb", api_key := "" }
        : CurrencySettings).rate_source = "ecb") ∧
    (let settings : CurrencySettings :=
      { base_currency := "EUR", rate_source := "ecb", api_key := "" }
     let usd : Currency :=
      { id := 1, code := "USD", name := "Dollar", symbol := "$",
        decimal_places := 2, exchange_rate := 1, is_active := true,
        is_deleted := false, last_updated := none, deleted_at := none,
        sort_order := 0 }
     let st0 : HubState := ⟨[usd], [], []⟩
     (update_rates settings (.ok [("USD", 2)]) 3 st0).2.currencies
       = st0.currencies.map
          (fun c => (ecbStep [("USD", 2)] (strUpper settings.base_currency) 3 c).1)) :=
  ⟨rfl,
    (c5_ecb_update_spec
      { base_currency := "EUR", rate_source := "ecb", api_key := "" }
      [("USD", 2)] 3 _ rfl).1.1⟩

/-! ### C7: the rate-change audit invariant -/

/-- The module's mutating operations, as one alphabet for stating the audit
    invariant: the three currency views, the toggle, the orchestrator and the
    two mutating assistant tools. -/
inductive MutatingOp
  | create (form : CurrencyFormData) (newId now : ℕ)
  | edit (pk : ℕ) (form : CurrencyFormData) (now : ℕ)
  | softDelete (pk now : ℕ)
  | toggle (pk : ℕ)
  | runUpdate (settings : CurrencySettings) (fetch : FetchResult) (now : ℕ)
  | toolAdd (code name symbol : String) (rate : ℚ) (dp newId : ℕ)
  | toolUpdateRate (code : String) (rate : ℚ) (now : ℕ) (historyOk : Bool)

/-- Run one mutating operation (a no-op result leaves the state as is). -/
def applyOp (op : MutatingOp) (st : HubState) : HubState :=
  match op with
  | .create form newId now => currency_create st form newId now
  | .edit pk form now => (currency_edit st pk form now).getD st
  | .softDelete pk now => (currency_delete st pk now).2
  | .toggle pk => (currency_toggle st pk).getD st
  | .runUpdate settings fetch now => (update_rates settings fetch now st).2
  | .toolAdd code name symbol rate dp newId =>
      add_currency_tool st code name symbol rate dp newId
  | .toolUpdateRate code rate now historyOk =>
      (update_exchange_rate_tool st code rate now historyOk).getD st

/-- The audit invariant between a state and its successor: every currency
    whose `exchange_rate` differs between the two states gained exactly one
    new history entry. -/
def pairedAudit (st st' : HubState) : Prop :=
  ∀ c ∈ st.currencies, ∀ c' ∈ st'.currencies,
    c'.id = c.id → c'.exchange_rate ≠ c.exchange_rate →
      (st'.history.filter fun e => e.currency_id == c.id).length
        = (st.history.filter fun e => e.currency_id == c.id).length + 1

instance (st st' : HubState) : Decidable (pairedAudit st st') := by
  unfold pairedAudit; infer_instance

/-- Database-generated primary keys are fresh: the creation operations never
    reuse an existing id. -/
def opFresh (op : MutatingOp) (st : HubState) : Prop :=
  match op with
  | .create _ newId _ => newId ∉ st.currencies.map Currency.id
  | .toolAdd _ _ _ _ _ newId => newId ∉ st.currencies.map Currency.id
  | _ => True

/-- The operation's history write is not swallowed: for the assistant
    rate-update tool this is exactly its `try/except Exception: pass`
    succeeding. -/
def opHistoryOk (op : MutatingOp) : Prop :=
  match op with
  | .toolUpdateRate _ _ _ historyOk => historyOk = true
  | _ => True

/-- With unique ids, two registry members with the same id are equal. -/
theorem wf_id_inj {st : HubState} (hwf : st.wf) {a b : Currency}
    (ha : a ∈ st.currencies) (hb : b ∈ st.currencies) (hid : a.id = b.id) :
    a = b :=
  List.inj_on_of_nodup_map hwf ha hb hid

/-- An unchanged state satisfies the audit invariant. -/
theorem pairedAudit_refl (st : HubState) (hwf : st.wf) : pairedAudit st st := by
  intro c hc c' hc' hid hrate
  exact absurd (congrArg Currency.exchange_rate (wf_id_inj hwf hc' hc hid)) hrate

/-- Appending a fresh-id currency (with any history) keeps the invariant:
    no existing id's rate can have changed. -/
theorem pairedAudit_of_append_fresh (st st' : HubState) (hwf : st.wf)
    (newC : Currency) (hcur : st'.currencies = st.currencies ++ [newC])
    (hfresh : newC.id ∉ st.currencies.map Currency.id) :
    pairedAudit st st' := by
  intro c hc c' hc' hid hrate
  rw [hcur] at hc'
  rcases List.mem_append.mp hc' with hmem | hnew
  · exact absurd (congrArg Currency.exchange_rate (wf_id_inj hwf hmem hc hid))
      hrate
  · have : c' = newC := by simpa using hnew
    subst this
    exact absurd (hid ▸ List.mem_map_of_mem Currency.id hc) hfresh

/-- Mapping a rate- and id-preserving function over the registry (history
    unchanged) keeps the invariant. -/
theorem pairedAudit_of_map_preserve (st st' : HubState) (hwf : st.wf)
    (f : Currency → Currency)
    (hcur : st'.currencies = st.currencies.map f)
    (hid : ∀ x, (f x).id = x.id)
    (hrate : ∀ x, (f x).exchange_rate = x.exchange_rate) :
    pairedAudit st st' := by
  intro c hc c' hc' hcid hcrate
  rw [hcur] at hc'
  obtain ⟨x, hx, rfl⟩ := List.mem_map.mp hc'
  have hxc : x = c := wf_id_inj hwf hx hc (by rw [← hid x]; exact hcid)
  subst hxc
  exact absurd (hrate x) hcrate

/-- Entries of other currencies never pass the id filter. -/
theorem filterMap_filter_eq_nil (cid : ℕ) (l : List Currency)
    (g : Currency → Option RateHistoryEntry)
    (hent : ∀ x e, g x = some e → e.currency_id = x.id)
    (hid : ∀ y ∈ l, y.id ≠ cid) :
    (l.filterMap g).filter (fun e => e.currency_id == cid) = [] := by
  induction l with
  | nil => rfl
  | cons a l' ih =>
    rw [List.filterMap_cons]
    cases hga : g a with
    | none => exact ih (fun y hy => hid y (List.mem_cons_of_mem a hy))
    | some e =>
      rw [List.filter_cons]
      have hpe : (e.currency_id == cid) = false := by
        rw [hent a e hga]
        exact beq_eq_false_iff_ne.mpr (hid a (List.mem_cons_self a l'))
      rw [if_neg (by simp [hpe])]
      exact ih (fun y hy => hid y (List.mem_cons_of_mem a hy))

/-- With unique ids, the loop's appends contain exactly one entry for a
    member currency whose step produced an entry. -/
theorem filterMap_filter_length_one (c : Currency) (l : List Currency)
    (g : Currency → Option RateHistoryEntry)
    (hent : ∀ x e, g x = some e → e.currency_id = x.id)
    (hc : c ∈ l) (hnodup : (l.map Currency.id).Nodup)
    (e : RateHistoryEntry) (hg : g c = some e) :
    ((l.filterMap g).filter (fun e' => e'.currency_id == c.id)).length
      = 1 := by
  induction l with
  | nil => cases hc
  | cons a l' ih =>
    rw [List.map_cons, List.nodup_cons] at hnodup
    rcases List.mem_cons.mp hc with rfl | hc'
    · rw [List.filterMap_cons, hg, List.filter_cons]
      have hpe : (e.currency_id == c.id) = true := by
        rw [hent c e hg]
        exact beq_self_eq_true _
      rw [if_pos hpe, List.length_cons]
      have hnil : (l'.filterMap g).filter
          (fun e' => e'.currency_id == c.id) = [] := by
        refine filterMap_filter_eq_nil c.id l' g hent (fun y hy hyid => ?_)
        exact hnodup.1 (hyid ▸ List.mem_map_of_mem Currency.id hy)
      rw [hnil]
      rfl
    · have haid : a.id ≠ c.id := fun h =>
        hnodup.1 (h ▸ List.mem_map_of_mem Currency.id hc')
      rw [List.filterMap_cons]
      cases hga : g a with
      | none => exact ih hc' hnodup.2
      | some e' =>
        rw [List.filter_cons]
        have hpe : (e'.currency_id == c.id) = false := by
          rw [hent a e' hga]
          exact beq_eq_false_iff_ne.mpr haid
        rw [if_neg (by simp [hpe])]
        exact ih hc' hnodup.2

/-- Appending one entry that passes the filter adds one to the count. -/
theorem filter_append_singleton (h : List RateHistoryEntry)
    (e : RateHistoryEntry) (p : RateHistoryEntry → Bool) (hp : p e = true) :
    ((h ++ [e]).filter p).length = (h.filter p).length + 1 := by
  rw [List.filter_append, List.length_append, List.filter_cons, if_pos hp]
  rfl

/-- A per-currency loop whose rate changes always come with an entry for that
    id keeps the invariant. -/
theorem pairedAudit_of_loop (st st' : HubState) (hwf : st.wf)
    (step : Currency → Currency × Option RateHistoryEntry × Option String)
    (hcur : st'.currencies = st.currencies.map (fun c => (step c).1))
    (hhist : st'.history
      = st.history ++ st.currencies.filterMap (fun c => (step c).2.1))
    (hid : ∀ x, (step x).1.id = x.id)
    (hchg : ∀ x, (step x).2.1 = none → (step x).1 = x)
    (hent : ∀ x e, (step x).2.1 = some e → e.currency_id = x.id) :
    pairedAudit st st' := by
  intro c hc c' hc' hcid hcrate
  rw [hcur] at hc'
  obtain ⟨x, hx, rfl⟩ := List.mem_map.mp hc'
  have hxc : x = c := wf_id_inj hwf hx hc (by rw [← hid x]; exact hcid)
  subst hxc
  cases hg : (step x).2.1 with
  | none => exact absurd (congrArg Currency.exchange_rate (hchg x hg)) hcrate
  | some e =>
    rw [hhist, List.filter_append, List.length_append]
    have h1 : ((st.currencies.filterMap (fun c => (step c).2.1)).filter
        (fun e' => e'.currency_id == x.id)).length = 1 :=
      filterMap_filter_length_one x st.currencies _
        (fun y e' hy => hent y e' hy) hx hwf e hg
    rw [h1]

/-- Inactive or soft-deleted rows are outside the API queryset: untouched. -/
theorem apiStep_skip_inactive (feed : List (String × ℚ)) (base : String)
    (now : ℕ) (c : Currency)
    (h : ¬(c.is_active = true ∧ c.is_deleted = false)) :
    apiStep feed base now c = (c, none, none) := by
  have hb : ¬((c.is_active && !c.is_deleted) = true) := by
    simp only [Bool.and_eq_true, Bool.not_eq_true']
    exact h
  unfold apiStep
  rw [if_neg hb]

/-- The base currency itself is skipped by the API loop. -/
theorem apiStep_skip_base (feed : List (String × ℚ)) (base : String)
    (now : ℕ) (c : Currency) (h1 : c.is_active = true)
    (h2 : c.is_deleted = false) (hb : strUpper c.code = base) :
    apiStep feed base now c = (c, none, none) := by
  unfold apiStep
  rw [if_pos (by simp [h1, h2]), if_pos hb]

/-- A currency found in the provider table: rate applied, entry tagged. -/
theorem apiStep_resolved (feed : List (String × ℚ)) (base : String)
    (now : ℕ) (c : Currency) (r : ℚ) (h1 : c.is_active = true)
    (h2 : c.is_deleted = false) (hb : strUpper c.code ≠ base)
    (hr : feedLookup feed (strUpper c.code) = some r) :
    apiStep feed base now c =
      ({ c with
          exchange_rate := quantizeHalfEven 6 r, last_updated := some now },
        some ⟨c.id, quantizeHalfEven 6 r, "exchangerate_api"⟩, none) := by
  unfold apiStep
  rw [if_pos (by simp [h1, h2]), if_neg hb, hr]

/-- A currency missing from the provider table: untouched, one warning. -/
theorem apiStep_unresolved (feed : List (String × ℚ)) (base : String)
    (now : ℕ) (c : Currency) (h1 : c.is_active = true)
    (h2 : c.is_deleted = false) (hb : strUpper c.code ≠ base)
    (hr : feedLookup feed (strUpper c.code) = none) :
    apiStep feed base now c =
      (c, none, some (strUpper c.code ++ ": Not available from API")) := by
  unfold apiStep
  rw [if_pos (by simp [h1, h2]), if_neg hb, hr]

/-- The ECB step never changes a row's id. -/
theorem ecbStep_fst_id (feed : List (String × ℚ)) (base : String) (now : ℕ)
    (c : Currency) : (ecbStep feed base now c).1.id = c.id := by
  by_cases h1 : c.is_active = true ∧ c.is_deleted = false
  · by_cases h2 : strUpper c.code = base
    · rw [ecbStep_skip_base feed base now c h1.1 h1.2 h2]
    · cases hres : resolveEcbRate feed base (strUpper c.code) with
      | some r => rw [ecbStep_resolved feed base now c r h1.1 h1.2 h2 hres]
      | none => rw [ecbStep_unresolved feed base now c h1.1 h1.2 h2 hres]
  · rw [ecbStep_skip_inactive feed base now c h1]

/-- A row without a history entry was not touched by the ECB step. -/
theorem ecbStep_none_entry (feed : List (String × ℚ)) (base : String)
    (now : ℕ) (c : Currency) (h : (ecbStep feed base now c).2.1 = none) :
    (ecbStep feed base now c).1 = c := by
  by_cases h1 : c.is_active = true ∧ c.is_deleted = false
  · by_cases h2 : strUpper c.code = base
    · rw [ecbStep_skip_base feed base now c h1.1 h1.2 h2]
    · cases hres : resolveEcbRate feed base (strUpper c.code) with
      | some r =>
        rw [ecbStep_resolved feed base now c r h1.1 h1.2 h2 hres] at h
        cases h
      | none => rw [ecbStep_unresolved feed base now c h1.1 h1.2 h2 hres]
  · rw [ecbStep_skip_inactive feed base now c h1]

/-- An ECB history entry carries the id of the row that produced it. -/
theorem ecbStep_entry_id (feed : List (String × ℚ)) (base : String)
    (now : ℕ) (c : Currency) (e : RateHistoryEntry)
    (h : (ecbStep feed base now c).2.1 = some e) : e.currency_id = c.id := by
  by_cases h1 : c.is_active = true ∧ c.is_deleted = false
  · by_cases h2 : strUpper c.code = base
    · rw [ecbStep_skip_base feed base now c h1.1 h1.2 h2] at h
      cases h
    · cases hres : resolveEcbRate feed base (strUpper c.code) with
      | some r =>
        rw [ecbStep_resolved feed base now c r h1.1 h1.2 h2 hres] at h
        simp only [Option.some.injEq] at h
        rw [← h]
      | none =>
        rw [ecbStep_unresolved feed base now c h1.1 h1.2 h2 hres] at h
        cases h
  · rw [ecbStep_skip_inactive feed base now c h1] at h
    cases h

/-- The API step never changes a row's id. -/
theorem apiStep_fst_id (feed : List (String × ℚ)) (base : String) (now : ℕ)
    (c : Currency) : (apiStep feed base now c).1.id = c.id := by
  by_cases h1 : c.is_active = true ∧ c.is_deleted = false
  · by_cases h2 : strUpper c.code = base
    · rw [apiStep_skip_base feed base now c h1.1 h1.2 h2]
    · cases hres : feedLookup feed (strUpper c.code) with
      | some r => rw [apiStep_resolved feed base now c r h1.1 h1.2 h2 hres]
      | none => rw [apiStep_unresolved feed base now c h1.1 h1.2 h2 hres]
  · rw [apiStep_skip_inactive feed base now c h1]

/-- A row without a history entry was not touched by the API step. -/
theorem apiStep_none_entry (feed : List (String × ℚ)) (base : String)
    (now : ℕ) (c : Currency) (h : (apiStep feed base now c).2.1 = none) :
    (apiStep feed base now c).1 = c := by
  by_cases h1 : c.is_active = true ∧ c.is_deleted = false
  · by_cases h2 : strUpper c.code = base
    · rw [apiStep_skip_base feed base now c h1.1 h1.2 h2]
    · cases hres : feedLookup feed (strUpper c.code) with
      | some r =>
        rw [apiStep_resolved feed base now c r h1.1 h1.2 h2 hres] at h
        cases h
      | none => rw [apiStep_unresolved feed base now c h1.1 h1.2 h2 hres]
  · rw [apiStep_skip_inactive feed base now c h1]

/-- An API history entry carries the id of the row that produced it. -/
theorem apiStep_entry_id (feed : List (String × ℚ)) (base : String)
    (now : ℕ) (c : Currency) (e : RateHistoryEntry)
    (h : (apiStep feed base now c).2.1 = some e) : e.currency_id = c.id := by
  by_cases h1 : c.is_active = true ∧ c.is_deleted = false
  · by_cases h2 : strUpper c.code = base
    · rw [apiStep_skip_base feed base now c h1.1 h1.2 h2] at h
      cases h
    · cases hres : feedLookup feed (strUpper c.code) with
      | some r =>
        rw [apiStep_resolved feed base now c r h1.1 h1.2 h2 hres] at h
        simp only [Option.some.injEq] at h
        rw [← h]
      | none =>
        rw [apiStep_unresolved feed base now c h1.1 h1.2 h2 hres] at h
        cases h
  · rw [apiStep_skip_inactive feed base now c h1] at h
    cases h

/-- Shape of a completed ECB run. -/
theorem update_rates_ecb_run (settings : CurrencySettings)
    (feed : List (String × ℚ)) (now : ℕ) (st : HubState)
    (hsrc : settings.rate_source = "ecb") :
    update_rates settings (.ok feed) now st
      = (.okUpdated
          (st.currencies.filterMap
            (fun c => (ecbStep feed (strUpper settings.base_currency) now c).2.1)).length
          (st.currencies.filterMap
            (fun c => (ecbStep feed (strUpper settings.base_currency) now c).2.2)),
        { st with
          currencies := st.currencies.map
            (fun c => (ecbStep feed (strUpper settings.base_currency) now c).1),
          history := st.history ++ st.currencies.filterMap
            (fun c => (ecbStep feed (strUpper settings.base_currency) now c).2.1) }) := by
  unfold update_rates
  rw [hsrc]
  rw [if_neg (by decide), if_pos rfl]
  simp only [rateLoop_eq]

/-- Shape of a completed ExchangeRate-API run. -/
theorem update_rates_api_run (settings : CurrencySettings)
    (feed : List (String × ℚ)) (now : ℕ) (st : HubState)
    (hsrc : settings.rate_source = "exchangerate_api")
    (hkey : ¬ settings.api_key = "") :
    update_rates settings (.ok feed) now st
      = (.okUpdated
          (st.currencies.filterMap
            (fun c => (apiStep feed (strUpper settings.base_currency) now c).2.1)).length
          (st.currencies.filterMap
            (fun c => (apiStep feed (strUpper settings.base_currency) now c).2.2)),
        { st with
          currencies := st.currencies.map
            (fun c => (apiStep feed (strUpper settings.base_currency) now c).1),
          history := st.history ++ st.currencies.filterMap
            (fun c => (apiStep feed (strUpper settings.base_currency) now c).2.1) }) := by
  unfold update_rates
  rw [hsrc]
  rw [if_neg (by decide), if_neg (by decide), if_pos rfl, if_neg hkey]
  simp only [rateLoop_eq]

/-- Shape of a successful edit. -/
theorem currency_edit_some (st : HubState) (pk : ℕ)
    (form : CurrencyFormData) (now : ℕ) (c0 : Currency)
    (hfind : st.currencies.find? (fun x => x.id == pk && !x.is_deleted)
      = some c0) :
    currency_edit st pk form now = some
      { currencies := st.currencies.map fun x => if x.id = pk then
          { c0 with
            code := strUpper form.code, name := form.name,
            symbol := form.symbol, decimal_places := form.decimal_places,
            exchange_rate := form.exchange_rate, is_active := form.is_active,
            sort_order := form.sort_order,
            last_updated :=
              if c0.exchange_rate ≠ form.exchange_rate then some now
              else c0.last_updated }
          else x,
        history :=
          if c0.exchange_rate ≠ form.exchange_rate then
            st.history ++ [⟨c0.id, form.exchange_rate, "manual"⟩]
          else st.history,
        payments := st.payments } := by
  rw [currency_edit, hfind]

/-- Shape of a successful toggle. -/
theorem currency_toggle_some (st : HubState) (pk : ℕ) (c0 : Currency)
    (hfind : st.currencies.find? (fun x => x.id == pk && !x.is_deleted)
      = some c0) :
    currency_toggle st pk = some
      { st with currencies := st.currencies.map fun x =>
          if x.id = pk then { x with is_active := !x.is_active } else x } := by
  rw [currency_toggle, hfind]

/-- Shape of a successful assistant rate update with a succeeding history
    write. -/
theorem update_exchange_rate_tool_some (st : HubState) (code : String)
    (newRate : ℚ) (now : ℕ) (c0 : Currency)
    (hfind : st.currencies.find?
      (fun c => c.code == strUpper code && !c.is_deleted) = some c0) :
    update_exchange_rate_tool st code newRate now true = some
      { currencies := st.currencies.map fun x => if x.id = c0.id then
          { x with exchange_rate := newRate, last_updated := some now }
          else x,
        history := st.history ++ [⟨c0.id, newRate, "manual"⟩],
        payments := st.payments } := by
  rw [update_exchange_rate_tool, hfind]
  rfl

/-- C7, counterexample: the assistant rate-update tool saves the new rate
    first and swallows a failing history write (`try/except Exception: pass`
    at `src/ai_tools.py:137`), so the state reached through a failed write
    contains a rate change with no paired audit entry — the invariant as
    claimed does not hold over all operations. -/
theorem c7_counterexample :
    (let usd : Currency :=
      { id := 1, code := "USD", name := "Dollar", symbol := "$",
        decimal_places := 2, exchange_rate := 1, is_active := true,
        is_deleted := false, last_updated := none, deleted_at := none,
        sort_order := 0 }
     let st0 : HubState := ⟨[usd], [], []⟩
     st0.wf ∧
     ¬ pairedAudit st0 (applyOp (.toolUpdateRate "USD" 2 5 false) st0)) := by
  with_unfolding_all decide

/-- C7, amended: the audit invariant does hold for every mutating operation
    whose history write is not swallowed — all views, the orchestrator, the
    assistant tools with a succeeding write — on a well-formed state whose
    creations use fresh primary keys: any currency whose rate changed gained
    exactly one history entry in the same step.  The only violation is the
    assistant rate-update tool with a failing (swallowed) history write. -/
theorem c7_audit_amended (op : MutatingOp) (st : HubState) (hwf : st.wf)
    (hfresh : opFresh op st) (hok : opHistoryOk op) :
    pairedAudit st (applyOp op st) := by
  cases op with
  | create form newId now =>
    exact pairedAudit_of_append_fresh st _ hwf _ rfl hfresh
  | edit pk form now =>
    cases hfind : st.currencies.find? (fun x => x.id == pk && !x.is_deleted) with
    | none =>
      have hnone : currency_edit st pk form now = none := by
        rw [currency_edit, hfind]
      simp only [applyOp, hnone, Option.getD_none]
      exact pairedAudit_refl st hwf
    | some c0 =>
      have hedit := currency_edit_some st pk form now c0 hfind
      simp only [applyOp, hedit, Option.getD_some]
      have hpred := List.find?_some hfind
      simp only [Bool.and_eq_true, beq_iff_eq] at hpred
      have hc0id : c0.id = pk := hpred.1
      have hc0mem : c0 ∈ st.currencies := List.mem_of_find?_eq_some hfind
      intro c hc c' hc' hcid hcrate
      obtain ⟨x, hx, rfl⟩ := List.mem_map.mp hc'
      by_cases hxid : x.id = pk
      · simp only [if_pos hxid] at hcid hcrate ⊢
        have hcc0 : c0 = c :=
          wf_id_inj hwf hc0mem hc (by rw [← hcid])
        by_cases hch : c0.exchange_rate ≠ form.exchange_rate
        · simp only [if_pos hch]
          refine filter_append_singleton _ _ _ ?_
          simp [hcc0]
        · exfalso
          rw [not_not] at hch
          apply hcrate
          show form.exchange_rate = c.exchange_rate
          rw [← hch, hcc0]
      · simp only [if_neg hxid] at hcid hcrate
        exact absurd
          (congrArg Currency.exchange_rate (wf_id_inj hwf hx hc hcid)) hcrate
  | softDelete pk now =>
    cases hfind : st.currencies.find? (fun x => x.id == pk && !x.is_deleted) with
    | none =>
      have hdel : currency_delete st pk now = (.notFound, st) := by
        rw [currency_delete, hfind]
      simp only [applyOp, hdel]
      exact pairedAudit_refl st hwf
    | some c0 =>
      by_cases hpay : st.payments.any
          (fun p => p.currency_id == some c0.id && !p.is_deleted) = true
      · have hdel : currency_delete st pk now = (.hasPayments, st) := by
          rw [currency_delete, hfind]
          simp only [hpay]
          rfl
        simp only [applyOp, hdel]
        exact pairedAudit_refl st hwf
      · have hdel : currency_delete st pk now
            = (.deleted, { st with currencies := st.currencies.map fun x =>
                if x.id = pk then
                  { x with is_deleted := true, deleted_at := some now }
                else x }) := by
          rw [currency_delete, hfind]
          simp only [hpay]
          rfl
        simp only [applyOp, hdel]
        refine pairedAudit_of_map_preserve st _ hwf _ rfl ?_ ?_
        · intro x
          by_cases h : x.id = pk <;> simp [h]
        · intro x
          by_cases h : x.id = pk <;> simp [h]
  | toggle pk =>
    cases hfind : st.currencies.find? (fun x => x.id == pk && !x.is_deleted) with
    | none =>
      have hnone : currency_toggle st pk = none := by
        rw [currency_toggle, hfind]
      simp only [applyOp, hnone, Option.getD_none]
      exact pairedAudit_refl st hwf
    | some c0 =>
      have htog := currency_toggle_some st pk c0 hfind
      simp only [applyOp, htog, Option.getD_some]
      refine pairedAudit_of_map_preserve st _ hwf _ rfl ?_ ?_
      · intro x
        by_cases h : x.id = pk <;> simp [h]
      · intro x
        by_cases h : x.id = pk <;> simp [h]
  | runUpdate settings fetch now =>
    by_cases h1 : settings.rate_source = "manual"
    · have hr : update_rates settings fetch now st = (.manualSourceError, st) := by
        unfold update_rates
        rw [if_pos h1]
      simp only [applyOp, hr]
      exact pairedAudit_refl st hwf
    · by_cases h2 : settings.rate_source = "ecb"
      · cases fetch with
        | error e =>
          have hr : update_rates settings (.error e) now st
              = (.providerError, st) := by
            unfold update_rates
            rw [if_neg h1, if_pos h2]
          simp only [applyOp, hr]
          exact pairedAudit_refl st hwf
        | ok feed =>
          have hr := update_rates_ecb_run settings feed now st h2
          simp only [applyOp, hr]
          exact pairedAudit_of_loop st _ hwf
            (ecbStep feed (strUpper settings.base_currency) now) rfl rfl
            (fun x => ecbStep_fst_id _ _ _ x)
            (fun x hx => ecbStep_none_entry _ _ _ x hx)
            (fun x e hx => ecbStep_entry_id _ _ _ x e hx)
      · by_cases h3 : settings.rate_source = "exchangerate_api"
        · by_cases hkey : settings.api_key = ""
          · have hr : update_rates settings fetch now st
                = (.missingApiKey, st) := by
              unfold update_rates
              rw [if_neg h1, if_neg h2, if_pos h3, if_pos hkey]
            simp only [applyOp, hr]
            exact pairedAudit_refl st hwf
          · cases fetch with
            | error e =>
              have hr : update_rates settings (.error e) now st
                  = (.providerError, st) := by
                unfold update_rates
                rw [if_neg h1, if_neg h2, if_pos h3, if_neg hkey]
              simp only [applyOp, hr]
              exact pairedAudit_refl st hwf
            | ok feed =>
              have hr := update_rates_api_run settings feed now st h3 hkey
              simp only [applyOp, hr]
              exact pairedAudit_of_loop st _ hwf
                (apiStep feed (strUpper settings.base_currency) now) rfl rfl
                (fun x => apiStep_fst_id _ _ _ x)
                (fun x hx => apiStep_none_entry _ _ _ x hx)
                (fun x e hx => apiStep_entry_id _ _ _ x e hx)
        · have hr : update_rates settings fetch now st
              = (.okUpdated 0 [], st) := by
            unfold update_rates
            rw [if_neg h1, if_neg h2, if_neg h3]
          simp only [applyOp, hr]
          exact pairedAudit_refl st hwf
  | toolAdd code name symbol rate dp newId =>
    exact pairedAudit_of_append_fresh st _ hwf _ rfl hfresh
  | toolUpdateRate code rate now historyOk =>
    have hok' : historyOk = true := hok
    subst hok'
    cases hfind : st.currencies.find?
        (fun c => c.code == strUpper code && !c.is_deleted) with
    | none =>
      have hnone : update_exchange_rate_tool st code rate now true = none := by
        rw [update_exchange_rate_tool, hfind]
      simp only [applyOp, hnone, Option.getD_none]
      exact pairedAudit_refl st hwf
    | some c0 =>
      have htool := update_exchange_rate_tool_some st code rate now c0 hfind
      simp only [applyOp, htool, Option.getD_some]
      intro c hc c' hc' hcid hcrate
      obtain ⟨x, hx, rfl⟩ := List.mem_map.mp hc'
      by_cases hxid : x.id = c0.id
      · simp only [if_pos hxid] at hcid hcrate ⊢
        refine filter_append_singleton _ _ _ ?_
        have : c.id = c0.id := by rw [← hcid, hxid]
        simp [this]
      · simp only [if_neg hxid] at hcid hcrate
        exact absurd
          (congrArg Currency.exchange_rate (wf_id_inj hwf hx hc hcid)) hcrate

/-- C7, witness: the amended invariant applied to a successful assistant rate
    update on a one-currency state. -/
theorem c7_witness :
    (let usd : Currency :=
      { id := 1, code := "USD", name := "Dollar", symbol := "$",
        decimal_places := 2, exchange_rate := 1, is_active := true,
        is_deleted := false, last_updated := none, deleted_at := none,
        sort_order := 0 }
     let st0 : HubState := ⟨[usd], [], []⟩
     st0.wf ∧ opFresh (.toolUpdateRate "USD" 2 5 true) st0 ∧
     opHistoryOk (.toolUpdateRate "USD" 2 5 true) ∧
     pairedAudit st0 (applyOp (.toolUpdateRate "USD" 2 5 true) st0)) :=
  ⟨by with_unfolding_all decide, trivial, rfl,
    c7_audit_amended (.toolUpdateRate "USD" 2 5 true) _
      (by with_unfolding_all decide) trivial rfl⟩

end Multicurrency

namespace Multicurrency

/-! ### Scratch checks of the rounding model (values cross-checked against
    CPython `decimal`) -/

example : quantizeHalfUp 2 (1/3) = 33/100 := by with_unfolding_all decide
example : quantizeHalfUp 2 (-1/200) = -1/100 := by with_unfolding_all decide
example : quantizeHalfEven 2 (-1/200) = 0 := by with_unfolding_all decide
example : quantizeHalfEven 2 (2/3) = 67/100 := by with_unfolding_all decide
example : quantizeHalfEven 6 2 = 2 := by with_unfolding_all decide

end Multicurrency
